import Mathlib

/-!
# SDL2 Emscripten audio driver

A shallow embedding of `src/audio/emscripten/SDL_emscriptenaudio.c`:
the staging buffer (`copyData`), the render pump (`HandleAudioProcess`),
the capture pump (`HandleCaptureProcess`) and the open-time format and
rate negotiation (`EMSCRIPTENAUDIO_OpenDevice`).

Conventions of the model.

* Memory blocks are total maps from a byte offset (relative to the block's
  base pointer) to a byte, as in Emscripten's flat linear heap: a write past
  the end of an allocation is a write at a larger offset.
* Sizes and offsets are natural numbers; every subtraction the source
  performs is either guarded by the source itself or exact on the states the
  theorems speak about.
* The application callback, `SDL_ConvertAudio`, `SDL_malloc` and the host's
  capture data are collaborators that live outside the file; they are
  parameters gathered in `Env` and `Host`.
* The hand-over of a buffer to the Web Audio glue, the callback invocations,
  the converter outputs and the `memcpy` destinations of `copyData` are
  recorded in a ghost `Trace`.
-/

namespace EmscriptenAudio

/-! ## Data model -/

/-- One byte (`Uint8`). -/
abbrev Uint8 := Fin 256

/-- A memory block addressed by byte offset from its base pointer. -/
abbrev Mem := Nat → Uint8

/-- The standard `memmove` inside one block: `n` bytes from offset `src` to offset `dst`. -/
def SDL_memmove (m : Mem) (dst src n : Nat) : Mem :=
  fun i => if dst ≤ i ∧ i < dst + n then m (src + (i - dst)) else m i

/-- The standard `memcpy`: `n` bytes from the base of `src` to offset `dst` of `m`. -/
def SDL_memcpy (m : Mem) (dst : Nat) (src : Mem) (n : Nat) : Mem :=
  fun i => if dst ≤ i ∧ i < dst + n then src (i - dst) else m i

/-- The `len` bytes of `m` starting at offset `off`, as a list. -/
def readBytes (m : Mem) (off len : Nat) : List Uint8 :=
  (List.range len).map (fun j => m (off + j))

/-- The macro `SDL_AUDIO_BITSIZE(x)`, that is `x & 0xFF`; the header that defines it
is not part of the sources at hand. -/
def SDL_AUDIO_BITSIZE (x : Nat) : Nat := x % 256

/-- The format code `AUDIO_F32` (little-endian signed float, 32 bits), `0x8120`. -/
def AUDIO_F32 : Nat := 0x8120

/-- The fields of `SDL_AudioSpec` the driver reads or writes. -/
structure SDL_AudioSpec where
  freq : Nat
  format : Nat
  channels : Nat
  samples : Nat
  size : Nat

/-- The fields of `SDL_AudioCVT` the driver reads or writes. -/
structure SDL_AudioCVT where
  needed : Bool
  src_format : Nat
  buf : Mem
  len : Nat
  len_cvt : Nat

/-- The driver's private data, `struct SDL_PrivateAudioData`; `mixbuf = none` is the
null pointer left by `SDL_zerop`. -/
structure SDL_PrivateAudioData where
  mixbuf : Option Mem
  mixlen : Nat
  conv_in_len : Nat
  write_off : Nat
  read_off : Nat

/-- The device, `_THIS`. -/
structure SDL_AudioDevice where
  spec : SDL_AudioSpec
  convert : SDL_AudioCVT
  enabled : Bool
  paused : Bool
  iscapture : Bool
  hidden : SDL_PrivateAudioData

/-- One hand-over to the Web Audio output glue: the `byte_len` bytes found at `buf`
and the frame count `byte_len / bytes / channels` passed along with it. -/
structure Delivery where
  data : List Uint8
  frames : Nat
deriving DecidableEq

/-- Ghost record of what one stream did, oldest event first. -/
structure Trace where
  /-- The `len` argument of every application callback invocation. -/
  callbacks : List Nat
  /-- The `len_cvt` bytes left in `convert.buf` by every `SDL_ConvertAudio` call. -/
  converted : List (List Uint8)
  /-- For every `copyData` call: destination offset, length and `mixlen` of its `memcpy`. -/
  copies : List (Nat × Nat × Nat)
  /-- Every buffer handed to the host's output slot. -/
  delivered : List Delivery
  /-- The frame count of every read of the host's capture buffer. -/
  captured : List Nat

/-- The empty record. -/
def Trace.empty : Trace := ⟨[], [], [], [], []⟩

/-- Device state together with its ghost record. -/
structure Machine where
  dev : SDL_AudioDevice
  trace : Trace

/-- The collaborators of the pumps. -/
structure Env where
  /-- The application callback `(*spec.callback)(userdata, stream, len)`: number of the
  invocation (counted from 0), the buffer before the call and `len` give the buffer after. -/
  callback : Nat → Mem → Nat → Mem
  /-- The converter `SDL_ConvertAudio(&convert)`: `convert.buf` and `convert.len` before
  the call give `convert.buf` and `convert.len_cvt` after it. -/
  SDL_ConvertAudio : Mem → Nat → Mem × Nat
  /-- The allocator `SDL_malloc(size)`: a fresh block with its initial contents, or `none`
  for the null pointer. -/
  SDL_malloc : Nat → Option Mem
  /-- The interleaved float samples of the host's capture buffer at the given read. -/
  capture : Nat → Mem

/-! ## The staging buffer: `copyData` -/

/-- The compaction branch of `copyData` (source lines 38-46). -/
def compact (h : SDL_PrivateAudioData) : SDL_PrivateAudioData :=
  let h1 : SDL_PrivateAudioData :=
    if h.write_off > h.read_off then
      { h with
        mixbuf := h.mixbuf.map (fun m => SDL_memmove m 0 h.read_off (h.mixlen - h.read_off))
        write_off := h.write_off - h.read_off }
    else
      { h with write_off := 0 }
  { h1 with read_off := 0 }

/-- The function `copyData` (source lines 32-56): the new state and the returned
`byte_len`. -/
def copyData (st : Machine) : Machine × Nat :=
  let d := st.dev
  let h : SDL_PrivateAudioData :=
    if d.hidden.write_off + d.convert.len_cvt > d.hidden.mixlen then compact d.hidden
    else d.hidden
  let h2 : SDL_PrivateAudioData :=
    { h with
      mixbuf := h.mixbuf.map (fun m => SDL_memcpy m h.write_off d.convert.buf d.convert.len_cvt)
      write_off := h.write_off + d.convert.len_cvt }
  let tr : Trace :=
    { st.trace with copies := st.trace.copies ++ [(h.write_off, d.convert.len_cvt, h.mixlen)] }
  (⟨{ d with hidden := h2 }, tr⟩, h2.write_off - h2.read_off)

/-- The quotient of `a` by `b` rounded up. -/
def ceilDiv (a b : Nat) : Nat := (a + b - 1) / b

/-- The staging-buffer invariant `0 ≤ read_off ≤ write_off ≤ mixlen`; the first
inequality holds by the type of the offsets. -/
def BufInv (h : SDL_PrivateAudioData) : Prop :=
  h.read_off ≤ h.write_off ∧ h.write_off ≤ h.mixlen

instance (h : SDL_PrivateAudioData) : Decidable (BufInv h) :=
  inferInstanceAs (Decidable (_ ∧ _))

/-- The consume step of the render pump, `read_off += byte_len` (source line 105). -/
def consume (n : Nat) (h : SDL_PrivateAudioData) : SDL_PrivateAudioData :=
  { h with read_off := h.read_off + n }

/-! ## The render pump: `HandleAudioProcess` -/

/-- One application callback into `convert.buf` followed by `SDL_ConvertAudio`
(source lines 77-80 and 96-99). -/
def produce (env : Env) (st : Machine) : Machine :=
  let d := st.dev
  let k := st.trace.callbacks.length
  let filled := env.callback k d.convert.buf d.convert.len
  let out := env.SDL_ConvertAudio filled d.convert.len
  { dev := { d with convert := { d.convert with buf := out.1, len_cvt := out.2 } }
    trace := { st.trace with
      callbacks := st.trace.callbacks ++ [d.convert.len]
      converted := st.trace.converted ++ [readBytes out.1 0 out.2] } }

/-- The loop `while (byte_len < spec.size)` of the render pump (source lines 95-101);
`none` when the iteration budget runs out before the loop exits. -/
def accumulate (env : Env) : Nat → Machine → Nat → Option Machine
  | 0, st, byte_len => if byte_len < st.dev.spec.size then none else some st
  | fuel + 1, st, byte_len =>
    if byte_len < st.dev.spec.size then
      let r := copyData (produce env st)
      accumulate env fuel r.1 r.2
    else some st

/-- The hand-over `if (buf) EM_ASM_ARGS(..., buf, byte_len / bytes / channels)`
(source lines 120-134). -/
def deliver (st : Machine) (buf : Option Mem) (byte_len bytes : Nat) : Machine :=
  match buf with
  | none => st
  | some b =>
    { st with trace := { st.trace with
        delivered := st.trace.delivered ++
          [⟨readBytes b 0 byte_len, byte_len / bytes / st.dev.spec.channels⟩] } }

/-- The input length the render pump gives the callback (source lines 73-75). -/
def setConvertLen (d : SDL_AudioDevice) : SDL_AudioDevice :=
  if d.hidden.conv_in_len ≠ 0 then
    { d with convert := { d.convert with
        len := d.hidden.conv_in_len * (SDL_AUDIO_BITSIZE d.convert.src_format / 8) * d.spec.channels } }
  else d

/-- The lazy allocation of the staging buffer in conversion mode (source lines 86-89). -/
def allocMixbuf (env : Env) (st : Machine) : Machine :=
  match st.dev.hidden.mixbuf with
  | some _ => st
  | none =>
    let mixlen :=
      if st.dev.spec.size > st.dev.convert.len_cvt then st.dev.spec.size * 2
      else st.dev.convert.len_cvt * 2
    { st with dev := { st.dev with
        hidden := { st.dev.hidden with mixlen := mixlen, mixbuf := env.SDL_malloc mixlen } } }

/-- The end of the size-mismatch branch (source lines 103-105) followed by the
hand-over: `byte_len = spec.size`, `buf = mixbuf + read_off`, `read_off += byte_len`. -/
def takeFromMixbuf (st : Machine) (bytes : Nat) : Machine :=
  let byte_len := st.dev.spec.size
  let buf := st.dev.hidden.mixbuf.map (fun m i => m (st.dev.hidden.read_off + i))
  let st1 : Machine := { st with dev := { st.dev with hidden := consume byte_len st.dev.hidden } }
  deliver st1 buf byte_len bytes

/-- The lazy allocation of the buffer the callback fills directly, without conversion
(source lines 109-112). -/
def allocDirect (env : Env) (st : Machine) : Machine :=
  match st.dev.hidden.mixbuf with
  | some _ => st
  | none =>
    { st with dev := { st.dev with
        hidden := { st.dev.hidden with
          mixlen := st.dev.spec.size, mixbuf := env.SDL_malloc st.dev.spec.size } } }

/-- The function `HandleAudioProcess` (source lines 58-135); `fuel` bounds the
iterations of its inner loop. -/
def HandleAudioProcess (env : Env) (fuel : Nat) (st : Machine) : Option Machine :=
  let bytes := SDL_AUDIO_BITSIZE st.dev.spec.format / 8
  if !st.dev.enabled || st.dev.paused then some st
  else if st.dev.convert.needed then
    let st1 := produce env { st with dev := setConvertLen st.dev }
    if st1.dev.convert.len_cvt ≠ st1.dev.spec.size then
      let r := copyData (allocMixbuf env st1)
      match accumulate env fuel r.1 r.2 with
      | none => none
      | some st3 => some (takeFromMixbuf st3 bytes)
    else
      some (deliver st1 (some st1.dev.convert.buf) st1.dev.convert.len_cvt bytes)
  else
    let st1 := allocDirect env st
    let k := st1.trace.callbacks.length
    let st2 : Machine :=
      { dev := { st1.dev with hidden := { st1.dev.hidden with
          mixbuf := st1.dev.hidden.mixbuf.map (fun m => env.callback k m st1.dev.hidden.mixlen) } }
        trace := { st1.trace with callbacks := st1.trace.callbacks ++ [st1.dev.hidden.mixlen] } }
    some (deliver st2 st2.dev.hidden.mixbuf st2.dev.hidden.mixlen bytes)

/-- Repeated render-pump invocations, each with the same loop budget. -/
def pumpRender (env : Env) (fuel : Nat) : Nat → Machine → Option Machine
  | 0, st => some st
  | n + 1, st =>
    match pumpRender env fuel n st with
    | none => none
    | some st1 => HandleAudioProcess env fuel st1

/-! ## The capture pump: `HandleCaptureProcess` -/

/-- The function `HandleCaptureProcess` (source lines 137-194). The read of the host's
capture buffer writes `frames * channels` floats of 4 bytes into `buf`, with
`frames = spec.size / sizeof(float) / channels`. -/
def HandleCaptureProcess (env : Env) (st : Machine) : Machine :=
  if !st.dev.enabled || st.dev.paused then st
  else
    let d := st.dev
    let frames := d.spec.size / 4 / d.spec.channels
    let data := env.capture st.trace.captured.length
    let k := st.trace.callbacks.length
    if d.convert.needed then
      let buflen := d.convert.len_cvt
      let raw := SDL_memcpy d.convert.buf 0 data (frames * d.spec.channels * 4)
      let out := env.SDL_ConvertAudio raw d.convert.len
      { dev := { d with convert := { d.convert with
            buf := env.callback k out.1 buflen, len_cvt := out.2 } }
        trace := { st.trace with
          captured := st.trace.captured ++ [frames]
          converted := st.trace.converted ++ [readBytes out.1 0 out.2]
          callbacks := st.trace.callbacks ++ [buflen] } }
    else
      let mixbuf : Option Mem :=
        match d.hidden.mixbuf with
        | some m => some m
        | none => env.SDL_malloc d.spec.size
      match mixbuf with
      | none => st
      | some m =>
        let raw := SDL_memcpy m 0 data (frames * d.spec.channels * 4)
        { dev := { d with hidden := { d.hidden with
              mixbuf := some (env.callback k raw d.spec.size) } }
          trace := { st.trace with
            captured := st.trace.captured ++ [frames]
            callbacks := st.trace.callbacks ++ [d.spec.size] } }

/-! ## Opening the device: `EMSCRIPTENAUDIO_OpenDevice` -/

/-- The staging buffer is allocated, its offsets are in order and within `mixlen`, and
its live bytes `mixbuf[read_off .. write_off)` are the list `L`. -/
def Live (st : Machine) (L : List Uint8) : Prop :=
  ∃ m, st.dev.hidden.mixbuf = some m ∧
    st.dev.hidden.read_off ≤ st.dev.hidden.write_off ∧
    st.dev.hidden.write_off ≤ st.dev.hidden.mixlen ∧
    readBytes m st.dev.hidden.read_off (st.dev.hidden.write_off - st.dev.hidden.read_off) = L

/-- Every `memcpy` of `copyData` so far had its destination
`[write_off, write_off + len_cvt)` inside `[0, mixlen)`. -/
def CopiesInBounds (tr : Trace) : Prop :=
  ∀ x ∈ tr.copies, x.1 + x.2.1 ≤ x.2.2

instance (tr : Trace) : Decidable (CopiesInBounds tr) :=
  inferInstanceAs (Decidable (∀ x ∈ tr.copies, x.1 + x.2.1 ≤ x.2.2))

/-- An enabled, unpaused stream in conversion mode with host transfers of `s` bytes. -/
def ConvMode (s : Nat) (d : SDL_AudioDevice) : Prop :=
  d.enabled = true ∧ d.paused = false ∧ d.convert.needed = true ∧ d.spec.size = s

/-! ## Concrete streams used to evaluate the model -/

/-- A block of zero bytes. -/
def zeroMem : Mem := fun _ => 0

/-- A block holding the byte `(7 * i + 1) mod 256` at offset `i`. -/
def rampMem : Mem := fun i => ⟨(7 * i + 1) % 256, Nat.mod_lt _ (by decide)⟩

/-- A mono float stream whose host transfers are `size` bytes long. -/
def monoSpec (size : Nat) : SDL_AudioSpec :=
  { freq := 48000, format := AUDIO_F32, channels := 1, samples := size / 4, size := size }

/-- An enabled, unpaused playback device over `monoSpec size` whose converter last
produced `len_cvt` bytes. -/
def monoDevice (needed : Bool) (size len_cvt : Nat) (hidden : SDL_PrivateAudioData) :
    SDL_AudioDevice :=
  { spec := monoSpec size
    convert := { needed := needed, src_format := AUDIO_F32, buf := rampMem, len := len_cvt,
                 len_cvt := len_cvt }
    enabled := true, paused := false, iscapture := false, hidden := hidden }

/-- Collaborators for the examples: the callback writes the invocation number into the
first byte, the converter leaves the bytes alone and reports `p` bytes, and every
allocation succeeds. -/
def monoEnv (p : Nat) : Env :=
  { callback := fun k m _ => fun i => if i = 0 then ⟨k % 256, Nat.mod_lt _ (by decide)⟩ else m i
    SDL_ConvertAudio := fun m _ => (m, p)
    SDL_malloc := fun _ => some zeroMem
    capture := fun _ => rampMem }

/-- A staging buffer of 8192 bytes holding 6000 live bytes at its start. -/
def fullState : Machine :=
  ⟨monoDevice true 4096 3000 ⟨some rampMem, 8192, 0, 6000, 0⟩, Trace.empty⟩

/-- A staging buffer of 8192 bytes whose 1904 live bytes sit at offsets 4096 to 6000. -/
def tailState : Machine :=
  ⟨monoDevice true 4096 3000 ⟨some rampMem, 8192, 0, 6000, 4096⟩, Trace.empty⟩

/-- The state right after open of a playback stream with transfers of 4096 bytes whose
converter is in use. -/
def freshState : Machine :=
  ⟨monoDevice true 4096 3000 ⟨none, 0, 0, 0, 0⟩, Trace.empty⟩

/-- The state right after open of a playback stream with transfers of 4096 bytes that
needs no conversion. -/
def directState : Machine :=
  ⟨monoDevice false 4096 0 ⟨none, 0, 0, 0, 0⟩, Trace.empty⟩

/-- A capture stream with transfers of 4096 bytes that the application has paused. -/
def pausedCapture : Machine :=
  ⟨{ monoDevice false 4096 0 ⟨none, 0, 0, 0, 0⟩ with paused := true, iscapture := true },
    Trace.empty⟩

/-- The state right after open of a playback stream with transfers of 4096 bytes whose
converter yields 8192 bytes per callback. -/
def overState : Machine :=
  ⟨monoDevice true 4096 8192 ⟨none, 0, 0, 0, 0⟩, Trace.empty⟩

/-! ## Elementary facts about byte blocks -/

theorem readBytes_length (m : Mem) (off len : Nat) : (readBytes m off len).length = len := by
  simp [readBytes]

theorem readBytes_congr {m m' : Mem} {off off' len : Nat}
    (h : ∀ j, j < len → m (off + j) = m' (off' + j)) :
    readBytes m off len = readBytes m' off' len := by
  unfold readBytes
  apply List.map_congr_left
  intro j hj
  exact h j (List.mem_range.mp hj)

theorem readBytes_add (m : Mem) (off a b : Nat) :
    readBytes m off (a + b) = readBytes m off a ++ readBytes m (off + a) b := by
  unfold readBytes
  rw [List.range_add, List.map_append, List.map_map]
  congr 1
  apply List.map_congr_left
  intro j _
  simp [Nat.add_assoc]

theorem readBytes_take (m : Mem) (off len n : Nat) (h : n ≤ len) :
    (readBytes m off len).take n = readBytes m off n := by
  obtain ⟨k, rfl⟩ := Nat.exists_eq_add_of_le h
  rw [readBytes_add, List.take_left' (readBytes_length _ _ _)]

theorem readBytes_drop (m : Mem) (off len n : Nat) (h : n ≤ len) :
    (readBytes m off len).drop n = readBytes m (off + n) (len - n) := by
  obtain ⟨k, rfl⟩ := Nat.exists_eq_add_of_le h
  rw [readBytes_add, List.drop_left' (readBytes_length _ _ _)]
  simp


theorem compact_read_off (h : SDL_PrivateAudioData) : (compact h).read_off = 0 := by
  unfold compact; simp

theorem compact_write_off (h : SDL_PrivateAudioData) :
    (compact h).write_off = h.write_off - h.read_off := by
  unfold compact
  by_cases hc : h.write_off > h.read_off
  · simp [hc]
  · simp [hc]; omega

theorem compact_mixlen (h : SDL_PrivateAudioData) : (compact h).mixlen = h.mixlen := by
  unfold compact
  by_cases hc : h.write_off > h.read_off <;> simp [hc]

theorem compact_conv_in_len (h : SDL_PrivateAudioData) :
    (compact h).conv_in_len = h.conv_in_len := by
  unfold compact
  by_cases hc : h.write_off > h.read_off <;> simp [hc]

theorem compact_mixbuf (h : SDL_PrivateAudioData) :
    (compact h).mixbuf =
      if h.write_off > h.read_off then
        h.mixbuf.map (fun m => SDL_memmove m 0 h.read_off (h.mixlen - h.read_off))
      else h.mixbuf := by
  unfold compact
  by_cases hc : h.write_off > h.read_off <;> simp [hc]

/-! ## Field-by-field description of `copyData` -/

/-- The private data as the `memcpy` of `copyData` finds it: compacted when the
appended bytes would not fit behind `write_off`. -/
theorem copyData_hidden (st : Machine) :
    (copyData st).1.dev.hidden =
      let h := if st.dev.hidden.write_off + st.dev.convert.len_cvt > st.dev.hidden.mixlen
        then compact st.dev.hidden else st.dev.hidden
      { h with
        mixbuf := h.mixbuf.map
          (fun m => SDL_memcpy m h.write_off st.dev.convert.buf st.dev.convert.len_cvt)
        write_off := h.write_off + st.dev.convert.len_cvt } := rfl

theorem copyData_read_off (st : Machine) :
    (copyData st).1.dev.hidden.read_off =
      if st.dev.hidden.write_off + st.dev.convert.len_cvt > st.dev.hidden.mixlen then 0
      else st.dev.hidden.read_off := by
  rw [copyData_hidden]
  by_cases hc : st.dev.hidden.write_off + st.dev.convert.len_cvt > st.dev.hidden.mixlen
  · simp [hc, compact_read_off]
  · simp [hc]

theorem copyData_write_off (st : Machine) :
    (copyData st).1.dev.hidden.write_off =
      (if st.dev.hidden.write_off + st.dev.convert.len_cvt > st.dev.hidden.mixlen then
        st.dev.hidden.write_off - st.dev.hidden.read_off
      else st.dev.hidden.write_off) + st.dev.convert.len_cvt := by
  rw [copyData_hidden]
  by_cases hc : st.dev.hidden.write_off + st.dev.convert.len_cvt > st.dev.hidden.mixlen
  · simp [hc, compact_write_off]
  · simp [hc]

theorem copyData_mixlen (st : Machine) :
    (copyData st).1.dev.hidden.mixlen = st.dev.hidden.mixlen := by
  rw [copyData_hidden]
  by_cases hc : st.dev.hidden.write_off + st.dev.convert.len_cvt > st.dev.hidden.mixlen
  · simp [hc, compact_mixlen]
  · simp [hc]

theorem copyData_conv_in_len (st : Machine) :
    (copyData st).1.dev.hidden.conv_in_len = st.dev.hidden.conv_in_len := by
  rw [copyData_hidden]
  by_cases hc : st.dev.hidden.write_off + st.dev.convert.len_cvt > st.dev.hidden.mixlen
  · simp [hc, compact_conv_in_len]
  · simp [hc]

theorem copyData_snd (st : Machine) :
    (copyData st).2 =
      (copyData st).1.dev.hidden.write_off - (copyData st).1.dev.hidden.read_off := rfl

theorem copyData_spec (st : Machine) : (copyData st).1.dev.spec = st.dev.spec := rfl

theorem copyData_convert (st : Machine) : (copyData st).1.dev.convert = st.dev.convert := rfl

theorem copyData_enabled (st : Machine) : (copyData st).1.dev.enabled = st.dev.enabled := rfl

theorem copyData_paused (st : Machine) : (copyData st).1.dev.paused = st.dev.paused := rfl

theorem copyData_callbacks (st : Machine) :
    (copyData st).1.trace.callbacks = st.trace.callbacks := rfl

theorem copyData_converted (st : Machine) :
    (copyData st).1.trace.converted = st.trace.converted := rfl

theorem copyData_delivered (st : Machine) :
    (copyData st).1.trace.delivered = st.trace.delivered := rfl

theorem copyData_captured (st : Machine) :
    (copyData st).1.trace.captured = st.trace.captured := rfl

/-- The number of live bytes after `copyData` is the number before plus `len_cvt`. -/
theorem copyData_live (st : Machine) (h : st.dev.hidden.read_off ≤ st.dev.hidden.write_off) :
    (copyData st).1.dev.hidden.read_off ≤ (copyData st).1.dev.hidden.write_off ∧
    (copyData st).2 =
      (st.dev.hidden.write_off - st.dev.hidden.read_off) + st.dev.convert.len_cvt := by
  rw [copyData_snd, copyData_read_off, copyData_write_off]
  by_cases hc : st.dev.hidden.write_off + st.dev.convert.len_cvt > st.dev.hidden.mixlen
  · simp [hc]
  · simp only [hc, if_false]; omega

/-- The bytes of the staging buffer after `copyData`, when it is allocated. -/
theorem copyData_mixbuf (st : Machine) (m : Mem) (hm : st.dev.hidden.mixbuf = some m) :
    (copyData st).1.dev.hidden.mixbuf =
      some (SDL_memcpy
        (if st.dev.hidden.write_off + st.dev.convert.len_cvt > st.dev.hidden.mixlen ∧
            st.dev.hidden.write_off > st.dev.hidden.read_off then
          SDL_memmove m 0 st.dev.hidden.read_off (st.dev.hidden.mixlen - st.dev.hidden.read_off)
        else m)
        ((copyData st).1.dev.hidden.write_off - st.dev.convert.len_cvt)
        st.dev.convert.buf st.dev.convert.len_cvt) := by
  rw [copyData_write_off, copyData_hidden]
  by_cases hc : st.dev.hidden.write_off + st.dev.convert.len_cvt > st.dev.hidden.mixlen
  · by_cases hw : st.dev.hidden.write_off > st.dev.hidden.read_off
    · simp [hc, hw, compact_mixbuf, compact_write_off, hm]
    · simp [hc, hw, compact_mixbuf, compact_write_off, hm]
  · simp [hc, hm]

/-! ## Claims about the staging buffer -/

/-- C1, as stated, fails: a buffer of 8192 bytes with 6000 live bytes at its start
satisfies the invariant, and after `copyData` appends 3000 bytes `write_off` is 9000,
beyond `mixlen`. -/
theorem copyData_invariant_counterexample :
    BufInv fullState.dev.hidden ∧ ¬ BufInv (copyData fullState).1.dev.hidden := by
  decide

/-- C1, amended: from a state with `read_off ≤ write_off ≤ mixlen`, when the live bytes
plus the appended `len_cvt` bytes fit in `mixlen`, the state after `copyData` (compaction
branch included) satisfies the invariant again; and the consume step `read_off += n`
keeps the invariant for every `n ≤ write_off - read_off`. -/
theorem copyData_consume_invariant (st : Machine) (hinv : BufInv st.dev.hidden) :
    ((st.dev.hidden.write_off - st.dev.hidden.read_off) + st.dev.convert.len_cvt
        ≤ st.dev.hidden.mixlen → BufInv (copyData st).1.dev.hidden) ∧
    ∀ n, n ≤ st.dev.hidden.write_off - st.dev.hidden.read_off →
      BufInv (consume n st.dev.hidden) := by
  obtain ⟨hrw, hwm⟩ := hinv
  refine ⟨?_, ?_⟩
  · intro hfit
    unfold BufInv
    rw [copyData_read_off, copyData_write_off, copyData_mixlen]
    by_cases hc : st.dev.hidden.write_off + st.dev.convert.len_cvt > st.dev.hidden.mixlen
    · simp only [hc, if_true]; omega
    · simp only [hc, if_false]; omega
  · intro n hn
    unfold BufInv consume
    simp only
    omega

/-- C1, amended, at a concrete state: 1904 live bytes at offsets 4096 to 6000 of a buffer
of 8192 bytes; 3000 bytes appended through the compaction branch, or all 1904 live bytes
consumed. -/
theorem copyData_consume_invariant_witness :
    BufInv tailState.dev.hidden ∧
    BufInv (copyData tailState).1.dev.hidden ∧
    BufInv (consume 1904 tailState.dev.hidden) :=
  ⟨by decide,
    (copyData_consume_invariant tailState (by decide)).1 (by decide),
    (copyData_consume_invariant tailState (by decide)).2 1904 (by decide)⟩

theorem SDL_memmove_front (m : Mem) (src n i : Nat) (h : i < n) :
    SDL_memmove m 0 src n i = m (src + i) := by
  have : 0 ≤ i ∧ i < 0 + n := by omega
  simp only [SDL_memmove, this, if_true, Nat.sub_zero, and_self]

theorem SDL_memcpy_before (m : Mem) (dst : Nat) (src : Mem) (n i : Nat) (h : i < dst) :
    SDL_memcpy m dst src n i = m i := by
  have : ¬ (dst ≤ i ∧ i < dst + n) := by omega
  simp only [SDL_memcpy, this, if_false]

theorem SDL_memcpy_inside (m : Mem) (dst : Nat) (src : Mem) (n j : Nat) (h : j < n) :
    SDL_memcpy m dst src n (dst + j) = src j := by
  have : dst ≤ dst + j ∧ dst + j < dst + n := by omega
  simp only [SDL_memcpy, this, if_true, Nat.add_sub_cancel_left, and_self]

theorem compact_of_read_off_zero (h : SDL_PrivateAudioData) (hr : h.read_off = 0) :
    compact h = h := by
  obtain ⟨mixbuf, mixlen, cil, w, r⟩ := h
  simp only at hr
  subst hr
  unfold compact
  by_cases hw : w > 0
  · have hmove : (fun m : Mem => SDL_memmove m 0 0 mixlen) = id := by
      funext m i; simp [SDL_memmove]
    simp [hw, hmove]
  · have : w = 0 := by omega
    simp [this]

theorem compact_iterate (h : SDL_PrivateAudioData) (n : Nat) :
    compact^[n + 1] h = compact h := by
  induction n with
  | zero => rfl
  | succ k ih =>
    rw [Function.iterate_succ_apply', ih]
    exact compact_of_read_off_zero _ (compact_read_off h)

/-- C2: when `read_off ≤ write_off ≤ mixlen`, compaction (once or any number of times in
a row) resets `read_off` to 0, sets `write_off` to the old `write_off - read_off` and
leaves at offsets `0 .. write_off - read_off` exactly the bytes that were at
`read_off .. write_off`; and a `copyData` that takes the compaction branch still has
those bytes there after its `memcpy`, which lands right behind them. -/
theorem compaction_preserves_live (st : Machine) (m : Mem)
    (hm : st.dev.hidden.mixbuf = some m)
    (hrw : st.dev.hidden.read_off ≤ st.dev.hidden.write_off)
    (hwm : st.dev.hidden.write_off ≤ st.dev.hidden.mixlen)
    (hfull : st.dev.hidden.write_off + st.dev.convert.len_cvt > st.dev.hidden.mixlen) :
    (∀ n, ∃ m1, (compact^[n + 1] st.dev.hidden).mixbuf = some m1 ∧
      (compact^[n + 1] st.dev.hidden).read_off = 0 ∧
      (compact^[n + 1] st.dev.hidden).write_off
        = st.dev.hidden.write_off - st.dev.hidden.read_off ∧
      readBytes m1 0 (st.dev.hidden.write_off - st.dev.hidden.read_off)
        = readBytes m st.dev.hidden.read_off
            (st.dev.hidden.write_off - st.dev.hidden.read_off)) ∧
    (∃ m2, (copyData st).1.dev.hidden.mixbuf = some m2 ∧
      (copyData st).1.dev.hidden.read_off = 0 ∧
      (copyData st).1.dev.hidden.write_off
        = (st.dev.hidden.write_off - st.dev.hidden.read_off) + st.dev.convert.len_cvt ∧
      readBytes m2 0 (st.dev.hidden.write_off - st.dev.hidden.read_off)
        = readBytes m st.dev.hidden.read_off
            (st.dev.hidden.write_off - st.dev.hidden.read_off) ∧
      readBytes m2 (st.dev.hidden.write_off - st.dev.hidden.read_off) st.dev.convert.len_cvt
        = readBytes st.dev.convert.buf 0 st.dev.convert.len_cvt) := by
  refine ⟨?_, ?_⟩
  · intro n
    rw [compact_iterate, compact_mixbuf, compact_read_off, compact_write_off, hm]
    by_cases hw : st.dev.hidden.write_off > st.dev.hidden.read_off
    · refine ⟨SDL_memmove m 0 st.dev.hidden.read_off
          (st.dev.hidden.mixlen - st.dev.hidden.read_off),
        by simp only [hw, if_true, Option.map_some'], rfl, rfl, ?_⟩
      apply readBytes_congr
      intro j hj
      rw [Nat.zero_add, SDL_memmove_front _ _ _ _ (by omega)]
    · refine ⟨m, by simp only [hw, if_false], rfl, rfl, ?_⟩
      have : st.dev.hidden.write_off - st.dev.hidden.read_off = 0 := by omega
      simp [this, readBytes]
  · have hwo : (copyData st).1.dev.hidden.write_off
        = (st.dev.hidden.write_off - st.dev.hidden.read_off) + st.dev.convert.len_cvt := by
      rw [copyData_write_off]; simp only [hfull, if_true]
    refine ⟨_, copyData_mixbuf st m hm, ?_, hwo, ?_, ?_⟩
    · rw [copyData_read_off]; simp only [hfull, if_true]
    · apply readBytes_congr
      intro j hj
      rw [hwo, Nat.add_sub_cancel, Nat.zero_add, SDL_memcpy_before _ _ _ _ _ hj]
      have hw : st.dev.hidden.write_off > st.dev.hidden.read_off := by omega
      simp only [hfull, hw, and_self, if_true]
      rw [SDL_memmove_front _ _ _ _ (by omega)]
    · apply readBytes_congr
      intro j hj
      rw [hwo, Nat.add_sub_cancel, SDL_memcpy_inside _ _ _ _ _ hj, Nat.zero_add]

/-- C2 at a concrete state: the 1904 live bytes at offsets 4096 to 6000 of a buffer of
8192 bytes, with 3000 bytes to append. -/
theorem compaction_preserves_live_witness :
    ∃ m2, (copyData tailState).1.dev.hidden.mixbuf = some m2 ∧
      (copyData tailState).1.dev.hidden.read_off = 0 ∧
      (copyData tailState).1.dev.hidden.write_off = 1904 + 3000 ∧
      readBytes m2 0 1904 = readBytes rampMem 4096 1904 ∧
      readBytes m2 1904 3000 = readBytes rampMem 0 3000 :=
  (compaction_preserves_live tailState rampMem rfl (by decide) (by decide) (by decide)).2

/-! ## The accumulation loop -/

theorem ceilDiv_zero (p : Nat) (hp : 0 < p) : ceilDiv 0 p = 0 := by
  unfold ceilDiv
  rw [Nat.zero_add]
  exact Nat.div_eq_of_lt (by omega)

theorem ceilDiv_step (a p : Nat) (hp : 0 < p) (ha : 0 < a) :
    ceilDiv a p = ceilDiv (a - p) p + 1 := by
  unfold ceilDiv
  by_cases hap : p ≤ a
  · have : a + p - 1 = (a - p + p - 1) + p := by omega
    rw [this, Nat.add_div_right _ hp]
  · have h0 : a - p = 0 := by omega
    rw [h0, Nat.zero_add, Nat.div_eq_of_lt (by omega : p - 1 < p)]
    exact Nat.div_eq_of_lt_le (by omega) (by omega)

theorem ceilDiv_mono (a b p : Nat) (h : a ≤ b) : ceilDiv a p ≤ ceilDiv b p := by
  unfold ceilDiv
  exact Nat.div_le_div_right (by omega)

/-- The product `ceilDiv a p * p` is the least multiple of `p` that reaches `a`. -/
theorem ceilDiv_mul_bounds (a p : Nat) (hp : 0 < p) :
    a ≤ ceilDiv a p * p ∧ ceilDiv a p * p < a + p := by
  unfold ceilDiv
  have h1 := Nat.div_add_mod (a + p - 1) p
  have h2 := Nat.mod_lt (a + p - 1) hp
  have h3 : (a + p - 1) / p * p = p * ((a + p - 1) / p) := Nat.mul_comm _ _
  omega

theorem produce_hidden (env : Env) (st : Machine) :
    (produce env st).dev.hidden = st.dev.hidden := rfl

theorem produce_spec (env : Env) (st : Machine) : (produce env st).dev.spec = st.dev.spec := rfl

theorem produce_enabled (env : Env) (st : Machine) :
    (produce env st).dev.enabled = st.dev.enabled := rfl

theorem produce_paused (env : Env) (st : Machine) :
    (produce env st).dev.paused = st.dev.paused := rfl

theorem produce_needed (env : Env) (st : Machine) :
    (produce env st).dev.convert.needed = st.dev.convert.needed := rfl

theorem produce_len (env : Env) (st : Machine) :
    (produce env st).dev.convert.len = st.dev.convert.len := rfl

theorem produce_src_format (env : Env) (st : Machine) :
    (produce env st).dev.convert.src_format = st.dev.convert.src_format := rfl

theorem produce_len_cvt (env : Env) (st : Machine) (p : Nat)
    (hp : ∀ b l, (env.SDL_ConvertAudio b l).2 = p) :
    (produce env st).dev.convert.len_cvt = p := hp _ _

theorem produce_callbacks (env : Env) (st : Machine) :
    (produce env st).trace.callbacks = st.trace.callbacks ++ [st.dev.convert.len] := rfl

theorem produce_converted (env : Env) (st : Machine) :
    (produce env st).trace.converted = st.trace.converted ++
      [readBytes (produce env st).dev.convert.buf 0 (produce env st).dev.convert.len_cvt] := rfl

theorem produce_delivered (env : Env) (st : Machine) :
    (produce env st).trace.delivered = st.trace.delivered := rfl

theorem produce_copies (env : Env) (st : Machine) :
    (produce env st).trace.copies = st.trace.copies := rfl

/-- The loop on offsets: from `live = write_off - read_off` bytes it runs
`ceilDiv (size - live) p` iterations, each adding `p` live bytes. -/
theorem accumulate_offsets (env : Env) (p : Nat)
    (hp : ∀ b l, (env.SDL_ConvertAudio b l).2 = p) (hpos : 0 < p) :
    ∀ (fuel : Nat) (st : Machine),
      st.dev.hidden.read_off ≤ st.dev.hidden.write_off →
      ceilDiv (st.dev.spec.size - (st.dev.hidden.write_off - st.dev.hidden.read_off)) p ≤ fuel →
      ∃ st1, accumulate env fuel st (st.dev.hidden.write_off - st.dev.hidden.read_off) = some st1 ∧
        st1.dev.spec = st.dev.spec ∧
        st1.dev.enabled = st.dev.enabled ∧ st1.dev.paused = st.dev.paused ∧
        st1.dev.convert.needed = st.dev.convert.needed ∧
        st1.dev.convert.len = st.dev.convert.len ∧
        st1.dev.hidden.mixlen = st.dev.hidden.mixlen ∧
        st1.dev.hidden.conv_in_len = st.dev.hidden.conv_in_len ∧
        st1.dev.hidden.mixbuf.isSome = st.dev.hidden.mixbuf.isSome ∧
        st1.dev.hidden.read_off ≤ st1.dev.hidden.write_off ∧
        (st.dev.hidden.read_off = 0 → st1.dev.hidden.read_off = 0) ∧
        st1.dev.hidden.write_off - st1.dev.hidden.read_off =
          (st.dev.hidden.write_off - st.dev.hidden.read_off) +
            ceilDiv (st.dev.spec.size - (st.dev.hidden.write_off - st.dev.hidden.read_off)) p * p ∧
        st1.trace.callbacks.length = st.trace.callbacks.length +
          ceilDiv (st.dev.spec.size - (st.dev.hidden.write_off - st.dev.hidden.read_off)) p ∧
        st1.trace.delivered = st.trace.delivered ∧
        st.dev.spec.size ≤ st1.dev.hidden.write_off - st1.dev.hidden.read_off := by
  intro fuel
  induction fuel with
  | zero =>
    intro st hrw hfuel
    by_cases hlt : st.dev.hidden.write_off - st.dev.hidden.read_off < st.dev.spec.size
    · rw [ceilDiv_step _ p hpos (by omega)] at hfuel
      omega
    · have h0 : st.dev.spec.size - (st.dev.hidden.write_off - st.dev.hidden.read_off) = 0 := by
        omega
      refine ⟨st, by simp only [accumulate, hlt, if_false], rfl, rfl, rfl, rfl, rfl, rfl, rfl,
        rfl, hrw, fun h => h, ?_, ?_, rfl, by omega⟩
      · rw [h0, ceilDiv_zero p hpos]; omega
      · rw [h0, ceilDiv_zero p hpos]; omega
  | succ k ih =>
    intro st hrw hfuel
    by_cases hlt : st.dev.hidden.write_off - st.dev.hidden.read_off < st.dev.spec.size
    · have hlive := copyData_live (produce env st) hrw
      rw [produce_len_cvt env st p hp, produce_hidden] at hlive
      obtain ⟨hrw1, hbl⟩ := hlive
      have hsnd := copyData_snd (produce env st)
      have hstep := ceilDiv_step
        (st.dev.spec.size - (st.dev.hidden.write_off - st.dev.hidden.read_off)) p hpos (by omega)
      have hsub : st.dev.spec.size - (st.dev.hidden.write_off - st.dev.hidden.read_off) - p
          = (copyData (produce env st)).1.dev.spec.size -
            ((copyData (produce env st)).1.dev.hidden.write_off -
              (copyData (produce env st)).1.dev.hidden.read_off) := by
        rw [← hsnd, hbl, copyData_spec, produce_spec]; omega
      rw [hsub] at hstep
      obtain ⟨st1, hacc, hspec, hen, hpa, hnd, hlen, hml, hcil, hmb, hrw2, hr0, hlv, hcb, hdl, hge⟩ :=
        ih (copyData (produce env st)).1 hrw1 (by omega)
      refine ⟨st1, ?_, ?_, ?_, ?_, ?_, ?_, ?_, ?_, ?_, hrw2, ?_, ?_, ?_, ?_, ?_⟩
      · simp only [accumulate, hlt, if_true]
        rw [hsnd]; exact hacc
      · rw [hspec, copyData_spec, produce_spec]
      · rw [hen, copyData_enabled, produce_enabled]
      · rw [hpa, copyData_paused, produce_paused]
      · rw [hnd, copyData_convert, produce_needed]
      · rw [hlen, copyData_convert, produce_len]
      · rw [hml, copyData_mixlen, produce_hidden]
      · rw [hcil, copyData_conv_in_len, produce_hidden]
      · rw [hmb, copyData_hidden, produce_hidden]
        by_cases hc : st.dev.hidden.write_off + (produce env st).dev.convert.len_cvt
            > st.dev.hidden.mixlen
        · simp only [hc, if_true, Option.isSome_map']
          rw [compact_mixbuf]
          by_cases hw : st.dev.hidden.write_off > st.dev.hidden.read_off
          · simp only [hw, if_true, Option.isSome_map']
          · simp only [hw, if_false]
        · simp only [hc, if_false, Option.isSome_map']
      · intro h0
        apply hr0
        rw [copyData_read_off, produce_hidden]
        by_cases hc : st.dev.hidden.write_off + (produce env st).dev.convert.len_cvt
            > st.dev.hidden.mixlen
        · simp only [hc, if_true]
        · simp only [hc, if_false]; exact h0
      · have hL1 : (copyData (produce env st)).1.dev.hidden.write_off -
            (copyData (produce env st)).1.dev.hidden.read_off
            = st.dev.hidden.write_off - st.dev.hidden.read_off + p := by
          rw [← hsnd]; exact hbl
        rw [hlv, hstep, Nat.add_mul, Nat.one_mul, hL1]; omega
      · rw [hcb, copyData_callbacks, produce_callbacks, hstep]
        simp only [List.length_append, List.length_singleton]; omega
      · rw [hdl, copyData_delivered, produce_delivered]
      · rw [copyData_spec, produce_spec] at hge; exact hge
    · have h0 : st.dev.spec.size - (st.dev.hidden.write_off - st.dev.hidden.read_off) = 0 := by
        omega
      refine ⟨st, by simp only [accumulate, hlt, if_false], rfl, rfl, rfl, rfl, rfl, rfl, rfl,
        rfl, hrw, fun h => h, ?_, ?_, rfl, by omega⟩
      · rw [h0, ceilDiv_zero p hpos]; omega
      · rw [h0, ceilDiv_zero p hpos]; omega

/-- C3: for a transfer size `s` and a converter that yields `p > 0` bytes per callback
(whatever their ratio, so in particular for `s > 0` and `s ≤ 1000 * p`), the loop
`while (byte_len < spec.size)` of the render pump exits after a number `n` of iterations
(one callback each) with `n ≤ ceilDiv s p`, given any budget of at least `n`, and on exit
the live byte count `write_off - read_off` is at least `s`. -/
theorem accumulate_terminates (env : Env) (st : Machine) (p : Nat)
    (hp : ∀ b l, (env.SDL_ConvertAudio b l).2 = p) (hpos : 0 < p)
    (hrw : st.dev.hidden.read_off ≤ st.dev.hidden.write_off) :
    ∃ n, n ≤ ceilDiv st.dev.spec.size p ∧
      ∀ fuel, n ≤ fuel →
        ∃ st1, accumulate env fuel st (st.dev.hidden.write_off - st.dev.hidden.read_off)
            = some st1 ∧
          st1.trace.callbacks.length = st.trace.callbacks.length + n ∧
          st.dev.spec.size ≤ st1.dev.hidden.write_off - st1.dev.hidden.read_off := by
  refine ⟨ceilDiv (st.dev.spec.size - (st.dev.hidden.write_off - st.dev.hidden.read_off)) p,
    ceilDiv_mono _ _ _ (Nat.sub_le _ _), ?_⟩
  intro fuel hfuel
  obtain ⟨st1, hacc, -, -, -, -, -, -, -, -, -, -, -, hcb, -, hge⟩ :=
    accumulate_offsets env p hp hpos fuel st hrw hfuel
  exact ⟨st1, hacc, hcb, hge⟩

/-- C3 at a concrete state: 1904 live bytes, a transfer of 4096 bytes and 3000 bytes per
callback. -/
theorem accumulate_terminates_witness :
    ∃ n, n ≤ ceilDiv tailState.dev.spec.size 3000 ∧
      ∀ fuel, n ≤ fuel →
        ∃ st1, accumulate (monoEnv 3000) fuel tailState
            (tailState.dev.hidden.write_off - tailState.dev.hidden.read_off) = some st1 ∧
          st1.trace.callbacks.length = tailState.trace.callbacks.length + n ∧
          tailState.dev.spec.size ≤ st1.dev.hidden.write_off - st1.dev.hidden.read_off :=
  accumulate_terminates (monoEnv 3000) tailState 3000 (fun _ _ => rfl) (by decide) (by decide)

/-! ## One render-pump invocation -/

theorem setConvertLen_spec (d : SDL_AudioDevice) : (setConvertLen d).spec = d.spec := by
  unfold setConvertLen; split <;> rfl

theorem setConvertLen_hidden (d : SDL_AudioDevice) : (setConvertLen d).hidden = d.hidden := by
  unfold setConvertLen; split <;> rfl

theorem setConvertLen_enabled (d : SDL_AudioDevice) :
    (setConvertLen d).enabled = d.enabled := by
  unfold setConvertLen; split <;> rfl

theorem setConvertLen_paused (d : SDL_AudioDevice) : (setConvertLen d).paused = d.paused := by
  unfold setConvertLen; split <;> rfl

theorem setConvertLen_needed (d : SDL_AudioDevice) :
    (setConvertLen d).convert.needed = d.convert.needed := by
  unfold setConvertLen; split <;> rfl

theorem setConvertLen_src_format (d : SDL_AudioDevice) :
    (setConvertLen d).convert.src_format = d.convert.src_format := by
  unfold setConvertLen; split <;> rfl

theorem readBytes_shift (m : Mem) (r n : Nat) :
    readBytes (fun i => m (r + i)) 0 n = readBytes m r n := by
  apply readBytes_congr
  intro j _
  simp only [Nat.zero_add]

/-- The render pump on an enabled, unpaused stream in conversion mode whose converter
output differs in size from the host transfer. -/
theorem HandleAudioProcess_mismatch (env : Env) (fuel : Nat) (st : Machine) (p : Nat)
    (hen : st.dev.enabled = true) (hpa : st.dev.paused = false)
    (hnd : st.dev.convert.needed = true)
    (hp : ∀ b l, (env.SDL_ConvertAudio b l).2 = p) (hne : p ≠ st.dev.spec.size) :
    HandleAudioProcess env fuel st =
      (accumulate env fuel
        (copyData (allocMixbuf env (produce env { st with dev := setConvertLen st.dev }))).1
        (copyData (allocMixbuf env (produce env { st with dev := setConvertLen st.dev }))).2).map
        (fun st3 => takeFromMixbuf st3 (SDL_AUDIO_BITSIZE st.dev.spec.format / 8)) := by
  have h1 : (produce env { st with dev := setConvertLen st.dev }).dev.convert.len_cvt = p :=
    produce_len_cvt env _ p hp
  have h2 : (produce env { st with dev := setConvertLen st.dev }).dev.spec.size
      = st.dev.spec.size := by
    rw [produce_spec]; simp only [setConvertLen_spec]
  unfold HandleAudioProcess
  simp only [hen, hpa, hnd, Bool.not_true, Bool.or_false, Bool.false_eq_true, if_false, if_true,
    h1, h2, ne_eq, hne, not_false_eq_true]
  cases accumulate env fuel
      (copyData (allocMixbuf env (produce env { st with dev := setConvertLen st.dev }))).1
      (copyData (allocMixbuf env (produce env { st with dev := setConvertLen st.dev }))).2 <;> rfl

theorem allocMixbuf_none (env : Env) (st : Machine) (h : st.dev.hidden.mixbuf = none) :
    allocMixbuf env st =
      { st with dev := { st.dev with hidden := { st.dev.hidden with
          mixlen := if st.dev.spec.size > st.dev.convert.len_cvt then st.dev.spec.size * 2
            else st.dev.convert.len_cvt * 2
          mixbuf := env.SDL_malloc
            (if st.dev.spec.size > st.dev.convert.len_cvt then st.dev.spec.size * 2
              else st.dev.convert.len_cvt * 2) } } } := by
  unfold allocMixbuf
  rw [h]

theorem allocMixbuf_some (env : Env) (st : Machine) (m : Mem)
    (h : st.dev.hidden.mixbuf = some m) : allocMixbuf env st = st := by
  unfold allocMixbuf
  rw [h]

/-- C7: one render-pump invocation on an enabled, unpaused stream in conversion mode,
starting from the empty, not yet allocated staging buffer, with transfer size `s > 0` and
`p > 0` converted bytes per callback, `p ≠ s`: it returns (given a loop budget of at
least `ceilDiv s p`), invokes the callback exactly `ceilDiv s p` times, hands over exactly
the `s` bytes at the buffer's read position (offset 0), advances `read_off` by `s` and
leaves `ceilDiv s p * p - s` live bytes. -/
theorem HandleAudioProcess_first_invocation (env : Env) (st : Machine) (p fuel : Nat)
    (hen : st.dev.enabled = true) (hpa : st.dev.paused = false)
    (hnd : st.dev.convert.needed = true)
    (hmb : st.dev.hidden.mixbuf = none)
    (hw : st.dev.hidden.write_off = 0) (hr : st.dev.hidden.read_off = 0)
    (hp : ∀ b l, (env.SDL_ConvertAudio b l).2 = p)
    (hmalloc : ∀ n, (env.SDL_malloc n).isSome = true)
    (hpos : 0 < p) (hs : 0 < st.dev.spec.size) (hne : p ≠ st.dev.spec.size)
    (hfuel : ceilDiv st.dev.spec.size p ≤ fuel) :
    ∃ st1 m, HandleAudioProcess env fuel st = some st1 ∧
      st1.trace.callbacks.length = st.trace.callbacks.length + ceilDiv st.dev.spec.size p ∧
      st1.dev.hidden.mixbuf = some m ∧
      st1.trace.delivered = st.trace.delivered ++
        [⟨readBytes m 0 st.dev.spec.size,
          st.dev.spec.size / (SDL_AUDIO_BITSIZE st.dev.spec.format / 8) / st.dev.spec.channels⟩] ∧
      st1.dev.hidden.read_off = st.dev.spec.size ∧
      st1.dev.hidden.write_off - st1.dev.hidden.read_off
        = ceilDiv st.dev.spec.size p * p - st.dev.spec.size := by
  rw [HandleAudioProcess_mismatch env fuel st p hen hpa hnd hp hne]
  generalize hst1 : produce env { st with dev := setConvertLen st.dev } = st1
  have h1len : st1.dev.convert.len_cvt = p := by rw [← hst1]; exact produce_len_cvt env _ p hp
  have h1spec : st1.dev.spec = st.dev.spec := by
    rw [← hst1, produce_spec]; simp only [setConvertLen_spec]
  have h1hid : st1.dev.hidden = st.dev.hidden := by
    rw [← hst1, produce_hidden]; simp only [setConvertLen_hidden]
  have h1cb : st1.trace.callbacks.length = st.trace.callbacks.length + 1 := by
    rw [← hst1, produce_callbacks]; simp
  have h1dl : st1.trace.delivered = st.trace.delivered := by rw [← hst1, produce_delivered]
  have h1mb : st1.dev.hidden.mixbuf = none := by rw [h1hid]; exact hmb
  generalize hst2 : allocMixbuf env st1 = st2
  have h2 := allocMixbuf_none env st1 h1mb
  rw [hst2] at h2
  have h2len : st2.dev.convert.len_cvt = p := by rw [h2]; exact h1len
  have h2spec : st2.dev.spec = st.dev.spec := by rw [h2]; exact h1spec
  have h2w : st2.dev.hidden.write_off = 0 := by rw [h2]; simp only; rw [h1hid]; exact hw
  have h2r : st2.dev.hidden.read_off = 0 := by rw [h2]; simp only; rw [h1hid]; exact hr
  have h2mb : st2.dev.hidden.mixbuf.isSome = true := by rw [h2]; exact hmalloc _
  have h2cb : st2.trace.callbacks = st1.trace.callbacks := by rw [h2]
  have h2dl : st2.trace.delivered = st1.trace.delivered := by rw [h2]
  -- the first `copyData`
  have h3live := copyData_live st2 (by omega)
  rw [h2len, h2w, h2r] at h3live
  obtain ⟨h3rw, h3snd⟩ := h3live
  have h3r : (copyData st2).1.dev.hidden.read_off = 0 := by
    rw [copyData_read_off, h2r]; split <;> rfl
  have h3mb : (copyData st2).1.dev.hidden.mixbuf.isSome = true := by
    obtain ⟨m2, hm2⟩ := Option.isSome_iff_exists.mp h2mb
    rw [copyData_mixbuf st2 m2 hm2]; rfl
  have h3eq := copyData_snd st2
  have h3spec : (copyData st2).1.dev.spec = st.dev.spec := by rw [copyData_spec]; exact h2spec
  have hstep := ceilDiv_step st.dev.spec.size p hpos hs
  have hwl : (copyData st2).1.dev.hidden.write_off - (copyData st2).1.dev.hidden.read_off
      = p := by rw [← h3eq, h3snd]; omega
  -- the loop
  obtain ⟨st3, hacc, hspec, -, -, -, -, -, -, hmb3, -, hr0, hlv, hcb, hdl, -⟩ :=
    accumulate_offsets env p hp hpos fuel (copyData st2).1 h3rw
      (by rw [hwl, h3spec]; omega)
  rw [hwl, h3spec] at hlv hcb
  rw [h3eq, hacc]
  have hr3 := hr0 h3r
  rw [h3mb] at hmb3
  obtain ⟨m3, hm3⟩ := Option.isSome_iff_exists.mp hmb3
  have hs3 : st3.dev.spec = st.dev.spec := by rw [hspec, h3spec]
  refine ⟨_, m3, rfl, ?_, ?_, ?_, ?_, ?_⟩
  · simp only [takeFromMixbuf, deliver, hm3, Option.map_some']
    rw [hcb, copyData_callbacks, h2cb, h1cb, hstep]; omega
  · simp only [takeFromMixbuf, deliver, hm3, Option.map_some', consume]
  · simp only [takeFromMixbuf, deliver, hm3, Option.map_some', consume]
    rw [hdl, copyData_delivered, h2dl, h1dl, hr3, readBytes_shift, hs3]
  · simp only [takeFromMixbuf, deliver, hm3, Option.map_some', consume]
    rw [hr3, hs3]; omega
  · simp only [takeFromMixbuf, deliver, hm3, Option.map_some', consume]
    rw [hr3, hs3, hstep, Nat.add_mul, Nat.one_mul]
    rw [hr3] at hlv
    omega

/-- C7 at the spec's Scenario C: 3000 converted bytes per callback and a host transfer of
4096 bytes give two callback invocations, one hand-over of 4096 bytes (1024 mono float
frames) and 1904 live bytes. -/
theorem HandleAudioProcess_first_invocation_witness :
    ∃ st1 m, HandleAudioProcess (monoEnv 3000) 2 freshState = some st1 ∧
      st1.trace.callbacks.length = 2 ∧
      st1.dev.hidden.mixbuf = some m ∧
      st1.trace.delivered = [⟨readBytes m 0 4096, 1024⟩] ∧
      st1.dev.hidden.read_off = 4096 ∧
      st1.dev.hidden.write_off - st1.dev.hidden.read_off = 1904 :=
  HandleAudioProcess_first_invocation (monoEnv 3000) freshState 3000 2 rfl rfl rfl rfl rfl rfl
    (fun _ _ => rfl) (fun _ => rfl) (by decide) (by decide) (by decide) (by decide)

/-- In a playback stream without conversion the buffer is either not yet allocated or
`spec.size` bytes long; the render pump keeps it so. -/
theorem direct_mixlen_preserved (env : Env) (fuel : Nat) (st st1 : Machine)
    (hnd : st.dev.convert.needed = false)
    (hreach : st.dev.hidden.mixbuf = none ∨ st.dev.hidden.mixlen = st.dev.spec.size)
    (hrun : HandleAudioProcess env fuel st = some st1) :
    st1.dev.convert.needed = false ∧ st1.dev.spec = st.dev.spec ∧
    (st1.dev.hidden.mixbuf = none ∨ st1.dev.hidden.mixlen = st1.dev.spec.size) := by
  unfold HandleAudioProcess at hrun
  by_cases hgate : (!st.dev.enabled || st.dev.paused) = true
  · simp only [hgate, if_true, Option.some.injEq] at hrun
    subst hrun
    exact ⟨hnd, rfl, hreach⟩
  · simp only [hgate, hnd, Bool.false_eq_true, if_false, Option.some.injEq] at hrun
    subst hrun
    cases hmb : st.dev.hidden.mixbuf with
    | none =>
      refine ⟨?_, ?_, Or.inr ?_⟩ <;>
        cases hal : env.SDL_malloc st.dev.spec.size <;>
          simp [allocDirect, deliver, hmb, hal, hnd]
    | some m =>
      have hml : st.dev.hidden.mixlen = st.dev.spec.size := by
        rcases hreach with h | h
        · rw [hmb] at h; cases h
        · exact h
      refine ⟨?_, ?_, Or.inr ?_⟩ <;> simp [allocDirect, deliver, hmb, hnd, hml]

/-- C8: one render-pump invocation on an enabled, unpaused playback stream that needs no
conversion (its buffer not yet allocated, or allocated by an earlier invocation and so
`spec.size` bytes long) invokes the callback exactly once, on a buffer of exactly
`s = spec.size` bytes, hands over exactly the `s` bytes of that buffer as the callback
left them, never calls `copyData` and leaves `read_off` and `write_off` unchanged. -/
theorem HandleAudioProcess_direct (env : Env) (fuel : Nat) (st : Machine)
    (hen : st.dev.enabled = true) (hpa : st.dev.paused = false)
    (hnd : st.dev.convert.needed = false)
    (hreach : st.dev.hidden.mixbuf = none ∨ st.dev.hidden.mixlen = st.dev.spec.size)
    (hmalloc : ∀ n, (env.SDL_malloc n).isSome = true) :
    ∃ st1 m0, HandleAudioProcess env fuel st = some st1 ∧
      (allocDirect env st).dev.hidden.mixbuf = some m0 ∧
      st1.trace.callbacks = st.trace.callbacks ++ [st.dev.spec.size] ∧
      st1.dev.hidden.mixbuf
        = some (env.callback st.trace.callbacks.length m0 st.dev.spec.size) ∧
      st1.trace.delivered = st.trace.delivered ++
        [⟨readBytes (env.callback st.trace.callbacks.length m0 st.dev.spec.size) 0
            st.dev.spec.size,
          st.dev.spec.size / (SDL_AUDIO_BITSIZE st.dev.spec.format / 8) / st.dev.spec.channels⟩] ∧
      st1.trace.copies = st.trace.copies ∧
      st1.dev.hidden.read_off = st.dev.hidden.read_off ∧
      st1.dev.hidden.write_off = st.dev.hidden.write_off := by
  unfold HandleAudioProcess
  simp only [hen, hpa, hnd, Bool.not_true, Bool.or_false, Bool.false_eq_true, if_false]
  cases hmb : st.dev.hidden.mixbuf with
  | none =>
    obtain ⟨m0, hm0⟩ := Option.isSome_iff_exists.mp (hmalloc st.dev.spec.size)
    refine ⟨_, m0, rfl, ?_, ?_, ?_, ?_, ?_, ?_, ?_⟩ <;>
      simp [allocDirect, deliver, hmb, hm0]
  | some m =>
    have hml : st.dev.hidden.mixlen = st.dev.spec.size := by
      rcases hreach with h | h
      · rw [hmb] at h; cases h
      · exact h
    refine ⟨_, m, rfl, ?_, ?_, ?_, ?_, ?_, ?_, ?_⟩ <;>
      simp [allocDirect, deliver, hmb, hml]

/-- C8 at the spec's Scenario B: no conversion, a host transfer of 4096 bytes. -/
theorem HandleAudioProcess_direct_witness :
    ∃ st1 m0, HandleAudioProcess (monoEnv 0) 0 directState = some st1 ∧
      (allocDirect (monoEnv 0) directState).dev.hidden.mixbuf = some m0 ∧
      st1.trace.callbacks = [4096] ∧
      st1.dev.hidden.mixbuf = some ((monoEnv 0).callback 0 m0 4096) ∧
      st1.trace.delivered = [⟨readBytes ((monoEnv 0).callback 0 m0 4096) 0 4096, 1024⟩] ∧
      st1.trace.copies = [] ∧
      st1.dev.hidden.read_off = 0 ∧
      st1.dev.hidden.write_off = 0 :=
  HandleAudioProcess_direct (monoEnv 0) 0 directState rfl rfl rfl (Or.inl rfl) (fun _ => rfl)

/-! ## The capture pump -/

/-- C9, as stated, fails: on a paused capture stream one `HandleCaptureProcess`
invocation does not read the host's capture buffer at all. -/
theorem HandleCaptureProcess_paused_counterexample :
    pausedCapture.dev.paused = true ∧
    ¬ ((HandleCaptureProcess (monoEnv 0) pausedCapture).trace.captured.length
          = pausedCapture.trace.captured.length + 1 ∧
        (HandleCaptureProcess (monoEnv 0) pausedCapture).trace.callbacks
          = pausedCapture.trace.callbacks) := by
  decide

/-- C9, amended: when the stream is not enabled or is paused, one `HandleCaptureProcess`
invocation returns at once and changes nothing: it neither reads the host's capture
buffer nor invokes the application callback. -/
theorem HandleCaptureProcess_gated (env : Env) (st : Machine)
    (h : st.dev.enabled = false ∨ st.dev.paused = true) :
    HandleCaptureProcess env st = st ∧
    (HandleCaptureProcess env st).trace.captured = st.trace.captured ∧
    (HandleCaptureProcess env st).trace.callbacks = st.trace.callbacks := by
  have hst : HandleCaptureProcess env st = st := by
    unfold HandleCaptureProcess
    rcases h with h | h <;> simp [h]
  rw [hst]
  exact ⟨rfl, rfl, rfl⟩

/-- C9, amended, at a paused capture stream. -/
theorem HandleCaptureProcess_gated_witness :
    HandleCaptureProcess (monoEnv 0) pausedCapture = pausedCapture ∧
    (HandleCaptureProcess (monoEnv 0) pausedCapture).trace.captured
      = pausedCapture.trace.captured ∧
    (HandleCaptureProcess (monoEnv 0) pausedCapture).trace.callbacks
      = pausedCapture.trace.callbacks :=
  HandleCaptureProcess_gated (monoEnv 0) pausedCapture (Or.inr rfl)

/-! ## The rate search at open time -/

theorem Live_length {st : Machine} {L : List Uint8} (h : Live st L) :
    L.length = st.dev.hidden.write_off - st.dev.hidden.read_off := by
  obtain ⟨m, -, -, -, hL⟩ := h
  rw [← hL, readBytes_length]

theorem copyData_copies (st : Machine) :
    (copyData st).1.trace.copies = st.trace.copies ++
      [((copyData st).1.dev.hidden.write_off - st.dev.convert.len_cvt,
        st.dev.convert.len_cvt, st.dev.hidden.mixlen)] := by
  have h : (copyData st).1.trace.copies = st.trace.copies ++
      [((if st.dev.hidden.write_off + st.dev.convert.len_cvt > st.dev.hidden.mixlen
          then compact st.dev.hidden else st.dev.hidden).write_off,
        st.dev.convert.len_cvt,
        (if st.dev.hidden.write_off + st.dev.convert.len_cvt > st.dev.hidden.mixlen
          then compact st.dev.hidden else st.dev.hidden).mixlen)] := rfl
  rw [h, copyData_write_off]
  by_cases hc : st.dev.hidden.write_off + st.dev.convert.len_cvt > st.dev.hidden.mixlen
  · simp only [hc, if_true, compact_write_off, compact_mixlen, Nat.add_sub_cancel]
  · simp only [hc, if_false, Nat.add_sub_cancel]

/-- An append that fits: when the live bytes `L` plus the `len_cvt` new bytes fit in
`mixlen`, `copyData` leaves the live bytes `L` followed by the new bytes, and its
`memcpy` stays inside the buffer. -/
theorem copyData_content (st : Machine) (L : List Uint8) (hL : Live st L)
    (hfit : L.length + st.dev.convert.len_cvt ≤ st.dev.hidden.mixlen) :
    Live (copyData st).1 (L ++ readBytes st.dev.convert.buf 0 st.dev.convert.len_cvt) ∧
    (CopiesInBounds st.trace → CopiesInBounds (copyData st).1.trace) := by
  have hlen := Live_length hL
  obtain ⟨m, hm, hrw, hwm, hLm⟩ := hL
  rw [hlen] at hfit
  have hwo := copyData_write_off st
  have hro := copyData_read_off st
  have hmb := copyData_mixbuf st m hm
  have hml := copyData_mixlen st
  have hw1 : (copyData st).1.dev.hidden.write_off ≤ st.dev.hidden.mixlen := by
    rw [hwo]; split <;> omega
  refine ⟨⟨_, hmb, ?_, ?_, ?_⟩, ?_⟩
  · rw [hwo, hro]; split <;> omega
  · rw [hml]; exact hw1
  · by_cases hc : st.dev.hidden.write_off + st.dev.convert.len_cvt > st.dev.hidden.mixlen
    · simp only [hc, if_true] at hwo hro
      rw [hro, hwo, Nat.sub_zero, Nat.add_sub_cancel, readBytes_add, ← hLm]
      congr 1
      · apply readBytes_congr
        intro j hj
        rw [Nat.zero_add, SDL_memcpy_before _ _ _ _ _ hj]
        have hw : st.dev.hidden.write_off > st.dev.hidden.read_off := by omega
        simp only [hc, hw, and_self, if_true]
        rw [SDL_memmove_front _ _ _ _ (by omega)]
      · apply readBytes_congr
        intro j hj
        rw [Nat.zero_add, SDL_memcpy_inside _ _ _ _ _ hj, Nat.zero_add]
    · simp only [hc, if_false] at hwo hro
      have hsplit : st.dev.hidden.write_off + st.dev.convert.len_cvt - st.dev.hidden.read_off
          = (st.dev.hidden.write_off - st.dev.hidden.read_off) + st.dev.convert.len_cvt := by
        omega
      rw [hro, hwo, Nat.add_sub_cancel, hsplit, readBytes_add, ← hLm]
      simp only [hc, false_and, if_false]
      congr 1
      · apply readBytes_congr
        intro j hj
        rw [SDL_memcpy_before _ _ _ _ _ (by omega)]
      · have hw : st.dev.hidden.read_off
            + (st.dev.hidden.write_off - st.dev.hidden.read_off) = st.dev.hidden.write_off := by
          omega
        rw [hw]
        apply readBytes_congr
        intro j hj
        rw [SDL_memcpy_inside _ _ _ _ _ hj, Nat.zero_add]
  · intro hcp x hx
    rw [copyData_copies, List.mem_append, List.mem_singleton] at hx
    rcases hx with hx | hx
    · exact hcp x hx
    · subst hx
      have : st.dev.convert.len_cvt ≤ (copyData st).1.dev.hidden.write_off := by
        rw [hwo]; omega
      simp only
      omega

theorem Live_congr {st st1 : Machine} {L : List Uint8} (h : st1.dev.hidden = st.dev.hidden)
    (hL : Live st L) : Live st1 L := by
  unfold Live at hL ⊢
  rw [h]; exact hL

theorem ConvMode_copyData_produce (env : Env) (s : Nat) (st : Machine)
    (h : ConvMode s st.dev) : ConvMode s (copyData (produce env st)).1.dev := by
  obtain ⟨h1, h2, h3, h4⟩ := h
  exact ⟨h1, h2, h3, h4⟩

/-- The loop on contents: while the buffer has room for one more converter output
whenever fewer than `s` bytes are live, the loop returns, every append stays inside the
buffer and the live bytes remain the tail of the concatenated converter outputs. -/
theorem accumulate_content (env : Env) (p s : Nat)
    (hp : ∀ b l, (env.SDL_ConvertAudio b l).2 = p) (hpos : 0 < p) :
    ∀ (fuel : Nat) (st : Machine) (pre L : List Uint8),
      ConvMode s st.dev → Live st L → st.trace.converted.flatten = pre ++ L →
      s + p ≤ st.dev.hidden.mixlen → CopiesInBounds st.trace → s - L.length ≤ fuel →
      ∃ st1 L1, accumulate env fuel st (st.dev.hidden.write_off - st.dev.hidden.read_off)
          = some st1 ∧
        ConvMode s st1.dev ∧ st1.dev.spec = st.dev.spec ∧ Live st1 L1 ∧
        st1.trace.converted.flatten = pre ++ L1 ∧
        st1.dev.hidden.mixlen = st.dev.hidden.mixlen ∧
        CopiesInBounds st1.trace ∧
        st1.trace.delivered = st.trace.delivered ∧
        s ≤ L1.length ∧ (L1.length < s + p ∨ L1 = L) := by
  intro fuel
  induction fuel with
  | zero =>
    intro st pre L hmode hL hjoin hcap hcp hfuel
    have hlen := Live_length hL
    have hsz : st.dev.spec.size = s := hmode.2.2.2
    have hnlt : ¬ (st.dev.hidden.write_off - st.dev.hidden.read_off < st.dev.spec.size) := by
      omega
    exact ⟨st, L, by simp only [accumulate, hnlt, if_false], hmode, rfl, hL, hjoin, rfl, hcp,
      rfl, by omega, Or.inr rfl⟩
  | succ k ih =>
    intro st pre L hmode hL hjoin hcap hcp hfuel
    have hlen := Live_length hL
    have hsz : st.dev.spec.size = s := hmode.2.2.2
    by_cases hlt : st.dev.hidden.write_off - st.dev.hidden.read_off < st.dev.spec.size
    · have hLp : Live (produce env st) L := Live_congr (produce_hidden env st) hL
      have hpl : (produce env st).dev.convert.len_cvt = p := produce_len_cvt env st p hp
      obtain ⟨hL1, hcp1⟩ := copyData_content (produce env st) L hLp
        (by rw [hpl, produce_hidden]; omega)
      rw [hpl] at hL1
      have hjoin1 : (copyData (produce env st)).1.trace.converted.flatten
          = pre ++ (L ++ readBytes (produce env st).dev.convert.buf 0 p) := by
        rw [copyData_converted, produce_converted, List.flatten_append, hjoin, hpl]
        simp only [List.flatten_cons, List.flatten_nil, List.append_nil, List.append_assoc]
      have hml1 : (copyData (produce env st)).1.dev.hidden.mixlen = st.dev.hidden.mixlen := by
        rw [copyData_mixlen, produce_hidden]
      obtain ⟨st1, L1, hacc, hm1, hs1, hl1, hj1, hmx1, hc1, hd1, hge1, hor1⟩ :=
        ih (copyData (produce env st)).1 pre _ (ConvMode_copyData_produce env s st hmode)
          hL1 hjoin1 (by rw [hml1]; exact hcap) (hcp1 hcp)
          (by simp only [List.length_append, readBytes_length]; omega)
      refine ⟨st1, L1, ?_, hm1, ?_, hl1, hj1, ?_, hc1, ?_, hge1, Or.inl ?_⟩
      · simp only [accumulate, hlt, if_true]
        rw [copyData_snd]; exact hacc
      · rw [hs1, copyData_spec, produce_spec]
      · rw [hmx1, hml1]
      · rw [hd1, copyData_delivered, produce_delivered]
      · rcases hor1 with h | h
        · exact h
        · rw [h]
          simp only [List.length_append, readBytes_length]
          omega
    · exact ⟨st, L, by simp only [accumulate, hlt, if_false], hmode, rfl, hL, hjoin, rfl, hcp,
        rfl, by omega, Or.inr rfl⟩

/-- One render-pump invocation with `0 < p < s`, from a state whose live bytes `L` (fewer
than `p`) are the tail of the concatenated converter outputs: the pump returns, hands
over the next `s` bytes `D` of that concatenation, keeps every `memcpy` inside the buffer
of `2 * s` bytes, and again leaves fewer than `p` live bytes. -/
theorem HandleAudioProcess_step (env : Env) (s p fuel : Nat)
    (hp : ∀ b l, (env.SDL_ConvertAudio b l).2 = p)
    (hmalloc : ∀ n, (env.SDL_malloc n).isSome = true)
    (hpos : 0 < p) (hps : p < s) (hfuel : s ≤ fuel)
    (st : Machine) (pre L : List Uint8)
    (hmode : ConvMode s st.dev)
    (hjoin : st.trace.converted.flatten = pre ++ L) (hLp : L.length < p)
    (hcp : CopiesInBounds st.trace)
    (hbuf : (st.dev.hidden.mixbuf = none ∧ st.dev.hidden.write_off = 0 ∧
              st.dev.hidden.read_off = 0 ∧ L = []) ∨
            (Live st L ∧ st.dev.hidden.mixlen = 2 * s)) :
    ∃ st1 L1 D, HandleAudioProcess env fuel st = some st1 ∧
      ConvMode s st1.dev ∧ st1.dev.spec = st.dev.spec ∧ D.length = s ∧
      st1.trace.converted.flatten = (pre ++ D) ++ L1 ∧ L1.length < p ∧
      CopiesInBounds st1.trace ∧ Live st1 L1 ∧ st1.dev.hidden.mixlen = 2 * s ∧
      st1.trace.delivered = st.trace.delivered ++
        [⟨D, s / (SDL_AUDIO_BITSIZE st.dev.spec.format / 8) / st.dev.spec.channels⟩] := by
  obtain ⟨hen, hpa, hnd, hsz⟩ := hmode
  rw [HandleAudioProcess_mismatch env fuel st p hen hpa hnd hp (by omega)]
  generalize hst1 : produce env { st with dev := setConvertLen st.dev } = st1
  have h1len : st1.dev.convert.len_cvt = p := by rw [← hst1]; exact produce_len_cvt env _ p hp
  have h1spec : st1.dev.spec = st.dev.spec := by
    rw [← hst1, produce_spec]; simp only [setConvertLen_spec]
  have h1hid : st1.dev.hidden = st.dev.hidden := by
    rw [← hst1, produce_hidden]; simp only [setConvertLen_hidden]
  have h1mode : ConvMode s st1.dev := by
    rw [← hst1]
    refine ⟨?_, ?_, ?_, ?_⟩
    · rw [produce_enabled]; simp only [setConvertLen_enabled]; exact hen
    · rw [produce_paused]; simp only [setConvertLen_paused]; exact hpa
    · rw [produce_needed]; simp only [setConvertLen_needed]; exact hnd
    · rw [produce_spec]; simp only [setConvertLen_spec]; exact hsz
  have h1dl : st1.trace.delivered = st.trace.delivered := by rw [← hst1, produce_delivered]
  have h1cp : st1.trace.copies = st.trace.copies := by rw [← hst1, produce_copies]
  have h1join : st1.trace.converted.flatten
      = pre ++ (L ++ readBytes st1.dev.convert.buf 0 p) := by
    rw [← h1len, ← hst1, produce_converted, List.flatten_append]
    simp only [List.flatten_cons, List.flatten_nil, List.append_nil]
    rw [hjoin, List.append_assoc]
  -- the allocation
  have h2 : ∃ st2, allocMixbuf env st1 = st2 ∧ Live st2 L ∧ st2.dev.hidden.mixlen = 2 * s ∧
      st2.dev.convert = st1.dev.convert ∧ st2.dev.spec = st1.dev.spec ∧
      st2.trace = st1.trace ∧ ConvMode s st2.dev := by
    rcases hbuf with ⟨hnone, hw0, hr0, hL0⟩ | ⟨hlive, hml⟩
    · have hn1 : st1.dev.hidden.mixbuf = none := by rw [h1hid]; exact hnone
      rw [allocMixbuf_none env st1 hn1]
      have hsz1 : st1.dev.spec.size = s := h1mode.2.2.2
      have hgt : st1.dev.spec.size > st1.dev.convert.len_cvt := by omega
      obtain ⟨m0, hm0⟩ := Option.isSome_iff_exists.mp (hmalloc (st1.dev.spec.size * 2))
      refine ⟨_, rfl, ⟨m0, ?_, ?_, ?_, ?_⟩, ?_, rfl, rfl, rfl, h1mode⟩
      · simp only [hgt, if_true]; exact hm0
      · simp only; rw [h1hid, hw0, hr0]
      · simp only [hgt, if_true]; rw [h1hid, hw0]; omega
      · simp only; rw [h1hid, hw0, hr0, hL0]; rfl
      · simp only [hgt, if_true]; omega
    · obtain ⟨m, hm, hrest⟩ := hlive
      have hm1 : st1.dev.hidden.mixbuf = some m := by rw [h1hid]; exact hm
      rw [allocMixbuf_some env st1 m hm1]
      exact ⟨st1, rfl, Live_congr h1hid ⟨m, hm, hrest⟩, by rw [h1hid]; exact hml,
        rfl, rfl, rfl, h1mode⟩
  obtain ⟨st2, hst2, h2live, h2ml, h2cv, h2spec, h2tr, h2mode⟩ := h2
  rw [hst2]
  have h2len : st2.dev.convert.len_cvt = p := by rw [h2cv]; exact h1len
  have hLlen := Live_length h2live
  -- the first append
  obtain ⟨h3live, h3cp⟩ := copyData_content st2 L h2live (by rw [h2len, h2ml]; omega)
  rw [h2len, h2cv] at h3live
  have h3join : (copyData st2).1.trace.converted.flatten
      = pre ++ (L ++ readBytes st1.dev.convert.buf 0 p) := by
    rw [copyData_converted, h2tr]; exact h1join
  have h3mode : ConvMode s (copyData st2).1.dev := h2mode
  -- the loop
  obtain ⟨st3, L3, hacc, hm3, hs3, hl3, hj3, hmx3, hc3, hd3, hge3, hor3⟩ :=
    accumulate_content env p s hp hpos fuel (copyData st2).1 pre _ h3mode h3live h3join
      (by rw [copyData_mixlen, h2ml]; omega)
      (h3cp (by rw [h2tr]; intro x hx; rw [h1cp] at hx; exact hcp x hx))
      (by omega)
  rw [copyData_snd, hacc]
  have hlt3 : L3.length < s + p := by
    rcases hor3 with h | h
    · exact h
    · rw [h]; simp only [List.length_append, readBytes_length]; omega
  have hL3len := Live_length hl3
  obtain ⟨m3, hm3b, hrw3, hwm3, hL3⟩ := hl3
  have hsz3 : st3.dev.spec.size = s := hm3.2.2.2
  have hspec3 : st3.dev.spec = st.dev.spec := by
    rw [hs3, copyData_spec, h2spec, h1spec]
  refine ⟨_, L3.drop s, L3.take s, rfl, ?_, ?_, ?_, ?_, ?_, ?_, ?_, ?_, ?_⟩
  · obtain ⟨a1, a2, a3, a4⟩ := hm3
    simp only [takeFromMixbuf, deliver, hm3b, Option.map_some']
    exact ⟨a1, a2, a3, a4⟩
  · simp only [takeFromMixbuf, deliver, hm3b, Option.map_some']
    exact hspec3
  · rw [List.length_take]; omega
  · simp only [takeFromMixbuf, deliver, hm3b, Option.map_some']
    rw [hj3, List.append_assoc, List.take_append_drop]
  · rw [List.length_drop]; omega
  · simp only [takeFromMixbuf, deliver, hm3b, Option.map_some']
    exact hc3
  · simp only [takeFromMixbuf, deliver, hm3b, Option.map_some']
    refine ⟨m3, hm3b, ?_, hwm3, ?_⟩
    · simp only [consume]; omega
    · simp only [consume]
      rw [← hL3, readBytes_drop _ _ _ _ (by omega), hsz3]
      congr 1
      omega
  · simp only [takeFromMixbuf, deliver, hm3b, Option.map_some', consume]
    rw [hmx3, copyData_mixlen, h2ml]
  · simp only [takeFromMixbuf, deliver, hm3b, Option.map_some']
    rw [hd3, copyData_delivered, h2tr, h1dl, readBytes_shift, hsz3, ← hL3,
      readBytes_take _ _ _ _ (by omega), hspec3]

/-! ## Sequences of render-pump invocations -/

/-- C4 fails for `p > s`: with transfers of `s = 4096` bytes and `p = 8192` converted bytes
per callback the buffer gets `mixlen = 16384`; three invocations stay within it, and the
fourth one compacts to `write_off = 12288` and copies 8192 bytes to offsets
`12288 .. 20480`, past the end of the buffer, leaving `write_off = 20480 > mixlen`. -/
theorem pumpRender_overflow :
    (pumpRender (monoEnv 8192) 0 3 overState).map
        (fun st => decide (BufInv st.dev.hidden ∧ CopiesInBounds st.trace)) = some true ∧
    (pumpRender (monoEnv 8192) 0 4 overState).map
        (fun st => (st.dev.hidden.mixlen, st.dev.hidden.read_off, st.dev.hidden.write_off,
          st.trace.copies.getLast?))
      = some (16384, 4096, 20480, some (12288, 8192, 16384)) ∧
    (pumpRender (monoEnv 8192) 0 4 overState).map
        (fun st => decide (BufInv st.dev.hidden ∨ CopiesInBounds st.trace)) = some false :=
  ⟨rfl, rfl, rfl⟩

/-- In a list of chunks that all have length `s`, the chunk number `k` is the slice
`[k * s, (k + 1) * s)` of their concatenation. -/
theorem chunk_eq_slice {α : Type} (s : Nat) :
    ∀ (ls : List (List α)) (k : Nat) (l : List α),
      (∀ x ∈ ls, x.length = s) → ls[k]? = some l →
      l = (ls.flatten.drop (k * s)).take s := by
  intro ls
  induction ls with
  | nil => intro k l _ h; simp at h
  | cons a t ih =>
    intro k l hall h
    have ha : a.length = s := hall a (List.mem_cons_self _ _)
    cases k with
    | zero =>
      simp only [List.getElem?_cons_zero, Option.some.injEq] at h
      subst h
      simp only [Nat.zero_mul, List.drop_zero, List.flatten_cons]
      exact (List.take_left' ha).symm
    | succ j =>
      rw [List.getElem?_cons_succ] at h
      have hj := ih j l (fun x hx => hall x (List.mem_cons_of_mem _ hx)) h
      have hmul : (j + 1) * s = a.length + j * s := by rw [ha, Nat.add_mul, Nat.one_mul]; omega
      rw [List.flatten_cons, hmul, List.drop_append]
      exact hj

/-- The invariant of a stream in conversion mode with `0 < p < s`, started with the
staging buffer unallocated: after any number `n` of render-pump invocations the
hand-overs are `n` chunks of `s` bytes whose concatenation `pre`, followed by the live
bytes `L` of the staging buffer, is the concatenation of all converter outputs; fewer
than `p` bytes are live, and no `memcpy` left the buffer. -/
theorem pumpRender_invariant (env : Env) (s p fuel : Nat)
    (hp : ∀ b l, (env.SDL_ConvertAudio b l).2 = p)
    (hmalloc : ∀ n, (env.SDL_malloc n).isSome = true)
    (hpos : 0 < p) (hps : p < s) (hfuel : s ≤ fuel)
    (st : Machine) (hmode : ConvMode s st.dev)
    (hmb : st.dev.hidden.mixbuf = none)
    (hw : st.dev.hidden.write_off = 0) (hr : st.dev.hidden.read_off = 0)
    (htr : st.trace = Trace.empty) :
    ∀ n, ∃ st1 pre L, pumpRender env fuel n st = some st1 ∧
      ConvMode s st1.dev ∧ st1.dev.spec = st.dev.spec ∧
      st1.trace.converted.flatten = pre ++ L ∧ L.length < p ∧
      CopiesInBounds st1.trace ∧
      ((st1.dev.hidden.mixbuf = none ∧ st1.dev.hidden.write_off = 0 ∧
          st1.dev.hidden.read_off = 0 ∧ L = []) ∨
        (Live st1 L ∧ st1.dev.hidden.mixlen = 2 * s)) ∧
      (st1.trace.delivered.map Delivery.data).flatten = pre ∧
      (∀ d ∈ st1.trace.delivered, d.data.length = s) ∧
      st1.trace.delivered.length = n := by
  intro n
  induction n with
  | zero =>
    refine ⟨st, [], [], rfl, hmode, rfl, ?_, by simpa using hpos, ?_, Or.inl ⟨hmb, hw, hr, rfl⟩,
      ?_, ?_, ?_⟩
    · rw [htr]; rfl
    · rw [htr]; intro x hx; simp [Trace.empty] at hx
    · rw [htr]; rfl
    · rw [htr]; intro d hd; simp [Trace.empty] at hd
    · rw [htr]; rfl
  | succ k ih =>
    obtain ⟨st1, pre, L, hrun, hm1, hs1, hj1, hL1, hc1, hb1, hd1, hall1, hn1⟩ := ih
    obtain ⟨st2, L2, D, hrun2, hm2, hs2, hDlen, hj2, hL2, hc2, hlive2, hml2, hdel2⟩ :=
      HandleAudioProcess_step env s p fuel hp hmalloc hpos hps hfuel st1 pre L hm1 hj1 hL1 hc1 hb1
    refine ⟨st2, pre ++ D, L2, ?_, hm2, by rw [hs2, hs1], hj2, hL2, hc2, Or.inr ⟨hlive2, hml2⟩,
      ?_, ?_, ?_⟩
    · simp only [pumpRender, hrun]; exact hrun2
    · rw [hdel2, List.map_append, List.flatten_append, hd1]
      simp only [List.map_cons, List.map_nil, List.flatten_cons, List.flatten_nil,
        List.append_nil]
    · intro d hd
      rw [hdel2, List.mem_append, List.mem_singleton] at hd
      rcases hd with hd | hd
      · exact hall1 d hd
      · rw [hd]; exact hDlen
    · rw [hdel2, List.length_append, hn1]; rfl

/-- For `0 < p < s` the claim of C4 holds: after every invocation
`read_off ≤ write_off ≤ mixlen`, and every `memcpy` of `copyData` had its destination
inside the buffer. -/
theorem pumpRender_in_bounds (env : Env) (s p fuel : Nat)
    (hp : ∀ b l, (env.SDL_ConvertAudio b l).2 = p)
    (hmalloc : ∀ n, (env.SDL_malloc n).isSome = true)
    (hpos : 0 < p) (hps : p < s) (hfuel : s ≤ fuel)
    (st : Machine) (hmode : ConvMode s st.dev)
    (hmb : st.dev.hidden.mixbuf = none)
    (hw : st.dev.hidden.write_off = 0) (hr : st.dev.hidden.read_off = 0)
    (htr : st.trace = Trace.empty) (n : Nat) :
    ∃ st1, pumpRender env fuel n st = some st1 ∧
      BufInv st1.dev.hidden ∧ CopiesInBounds st1.trace := by
  obtain ⟨st1, pre, L, hrun, -, -, -, -, hc1, hb1, -⟩ :=
    pumpRender_invariant env s p fuel hp hmalloc hpos hps hfuel st hmode hmb hw hr htr n
  refine ⟨st1, hrun, ?_, hc1⟩
  rcases hb1 with ⟨-, h1, h2, -⟩ | ⟨⟨m, -, h1, h2, -⟩, -⟩
  · exact ⟨by omega, by omega⟩
  · exact ⟨h1, h2⟩

/-- C10: on an enabled, unpaused stream in conversion mode with `0 < p < s`, started with
the staging buffer unallocated, any number `n` of render-pump invocations return (given
a loop budget of at least `s` each); they make `n` hand-overs of `s` bytes each, and the
hand-over number `k` (counted from 0) is exactly the bytes `[k * s, (k + 1) * s)` of the
concatenation, in production order, of the converter outputs; so the hand-over of the
`n`-th invocation is the slice `[(n - 1) * s, n * s)` of everything converted so far. -/
theorem render_pump_fifo (env : Env) (s p fuel : Nat)
    (hp : ∀ b l, (env.SDL_ConvertAudio b l).2 = p)
    (hmalloc : ∀ n, (env.SDL_malloc n).isSome = true)
    (hpos : 0 < p) (hps : p < s) (hfuel : s ≤ fuel)
    (st : Machine) (hmode : ConvMode s st.dev)
    (hmb : st.dev.hidden.mixbuf = none)
    (hw : st.dev.hidden.write_off = 0) (hr : st.dev.hidden.read_off = 0)
    (htr : st.trace = Trace.empty) (n : Nat) :
    ∃ st1, pumpRender env fuel n st = some st1 ∧
      st1.trace.delivered.length = n ∧
      (st1.trace.delivered.map Delivery.data).flatten
        = st1.trace.converted.flatten.take (n * s) ∧
      ∀ k d, st1.trace.delivered[k]? = some d →
        d.data.length = s ∧
        d.data = (st1.trace.converted.flatten.drop (k * s)).take s := by
  obtain ⟨st1, pre, L, hrun, -, -, hj, -, -, -, hd, hall, hn⟩ :=
    pumpRender_invariant env s p fuel hp hmalloc hpos hps hfuel st hmode hmb hw hr htr n
  have hchunks : ∀ x ∈ st1.trace.delivered.map Delivery.data, x.length = s := by
    intro x hx
    obtain ⟨d, hd1, rfl⟩ := List.mem_map.mp hx
    exact hall d hd1
  have hprelen : pre.length = n * s := by
    rw [← hd, List.length_flatten, List.map_map]
    have : List.map (List.length ∘ Delivery.data) st1.trace.delivered
        = List.replicate st1.trace.delivered.length s := by
      apply List.eq_replicate_iff.mpr
      refine ⟨by simp, ?_⟩
      intro b hb
      obtain ⟨d, hd1, rfl⟩ := List.mem_map.mp hb
      exact hall d hd1
    rw [this, List.sum_replicate, hn, smul_eq_mul]
  refine ⟨st1, hrun, hn, ?_, ?_⟩
  · rw [hj, hd, List.take_left' hprelen]
  · intro k d hk
    have hmem : d ∈ st1.trace.delivered := by
      obtain ⟨hlt, hget⟩ := List.getElem?_eq_some_iff.mp hk
      rw [← hget]; exact List.getElem_mem hlt
    refine ⟨hall d hmem, ?_⟩
    have hk2 : (st1.trace.delivered.map Delivery.data)[k]? = some d.data := by
      rw [List.getElem?_map, hk]; rfl
    have hslice := chunk_eq_slice s _ k d.data hchunks hk2
    rw [hd] at hslice
    have hkn : k < n := by
      rw [← hn]
      exact (List.getElem?_eq_some_iff.mp hk).1
    have hle : (k + 1) * s ≤ n * s := Nat.mul_le_mul_right s hkn
    have hks : k * s + s = (k + 1) * s := by rw [Nat.add_mul, Nat.one_mul]
    rw [hslice, hj, List.drop_append_of_le_length (by omega),
      List.take_append_of_le_length (by rw [List.length_drop]; omega)]

/-- C10 on a stream with transfers of 4096 bytes and 3000 converted bytes per callback,
after five invocations. -/
theorem render_pump_fifo_witness :
    ∃ st1, pumpRender (monoEnv 3000) 4096 5 freshState = some st1 ∧
      st1.trace.delivered.length = 5 ∧
      (st1.trace.delivered.map Delivery.data).flatten
        = st1.trace.converted.flatten.take (5 * 4096) ∧
      ∀ k d, st1.trace.delivered[k]? = some d →
        d.data.length = 4096 ∧
        d.data = (st1.trace.converted.flatten.drop (k * 4096)).take 4096 :=
  render_pump_fifo (monoEnv 3000) 4096 3000 4096 (fun _ _ => rfl) (fun _ => rfl)
    (by decide) (by decide) (by decide) freshState ⟨rfl, rfl, rfl, rfl⟩ rfl rfl rfl rfl 5

end EmscriptenAudio
